import Mathlib

/-!
Verification of the encyclopedia wiki application (`encyclopedia/views.py`)
against its natural-language specification.

The store is an association list of `(title, content)` pairs; the utility
layer (`util.list_entries`, `util.get_entry`, `util.save_entry`) is not part
of the provided source, so it is modelled from the spec.  Each request
handler from `views.py` is translated into a pure Lean function from the
request data and the store state to a `Response` (and, for the mutating
handlers, a new store state).  A handler whose Python code would raise an
uncaught exception is modelled as returning `none`.
-/

set_option autoImplicit false

namespace Wiki

/-- Lowercasing, modelling both Python `str.lower()` and `str.casefold()`
as used for the case-insensitive title comparisons in `views.py`. -/
def pyLower (s : String) : String := ⟨s.data.map Char.toLower⟩

/-- Python `str.strip()`: remove surrounding whitespace. -/
def pyStrip (s : String) : String :=
  ⟨((s.data.dropWhile Char.isWhitespace).reverse.dropWhile Char.isWhitespace).reverse⟩

/-- `listStartsWith s pat` is true when `pat` is an initial segment of `s`
(char lists). -/
def listStartsWith : List Char → List Char → Bool
  | _, [] => true
  | [], _ :: _ => false
  | a :: as, b :: bs => a == b && listStartsWith as bs

/-- `listHasSub s pat` models Python `pat in s` on char lists: `pat` occurs
contiguously inside `s` (the empty pattern occurs in every string). -/
def listHasSub : List Char → List Char → Bool
  | [], pat => pat.isEmpty
  | s@(_ :: t), pat => listStartsWith s pat || listHasSub t pat

/-- `strHasSub s pat` models the Python expression `pat in s` on strings. -/
def strHasSub (s pat : String) : Bool := listHasSub s.data pat.data

/-- The store state: one `(title, content)` pair per stored entry, in
store-enumeration order. -/
abbrev Store := List (String × String)

/-- Modelled from the spec (`util.list_entries` is not in the provided
source): enumerates all currently stored entry titles, in store order. -/
def list_entries (s : Store) : List String := s.map Prod.fst

/-- Modelled from the spec (`util.get_entry` is not in the provided
source): exact-match (case-sensitive) lookup of an entry content by title,
`none` signalling absence. -/
def get_entry (s : Store) (title : String) : Option String :=
  (s.find? (fun e => e.fst == title)).map Prod.snd

/-- Modelled from the spec (`util.save_entry` is not in the provided
source): writes `content` for `title`, fully overwriting an entry with that
exact title if present, creating it otherwise. -/
def save_entry (s : Store) (title content : String) : Store :=
  if s.any (fun e => e.fst == title) then
    s.map (fun e => if e.fst == title then (title, content) else e)
  else
    s ++ [(title, content)]

/-- HTTP request method, as distinguished by `views.py`. -/
inductive Method where
  | get
  | post
deriving DecidableEq

/-- The possible handler outcomes: each constructor records a template
rendered with its context, or a redirect to an entry view page. -/
inductive Response where
  | indexPage (entries : List String)
  | entryPage (title : String) (html : String)
  | errorPage (msg : String)
  | searchPage (results : List String)
  | newForm
  | editForm (title : String) (initial : Option String)
  | redirect (target : String)
deriving DecidableEq, Repr

/-- The data of a `NewEntryForm` submission: each field is `some` raw value
when present in the POST data, `none` when absent. -/
structure NewEntryData where
  title : Option String
  content : Option String

/-- Django `CharField` cleaning as consumed by the handlers: a required
field is valid when present and non-empty after stripping surrounding
whitespace; its cleaned value is the stripped string. -/
def cleanField (f : Option String) : Option String :=
  match f with
  | none => none
  | some v => if (pyStrip v).data.isEmpty then none else some (pyStrip v)

/-- The `index` view: renders the list of all entries. -/
def index (s : Store) : Response :=
  .indexPage (list_entries s)

/-- The first stored title matching `title` case-insensitively, in
store-enumeration order: the `for ent in util.list_entries()` loop of the
`entry` view. -/
def findCaseTitle (entries : List String) (title : String) : Option String :=
  entries.find? (fun ent => pyLower ent == pyLower title)

/-- The `entry` view, parametrised by the markup renderer `md` (the
external `markdown` collaborator).  When no stored title matches
case-insensitively, the Python code reads the never-assigned local
`case_title` and raises `UnboundLocalError`; this fault is `none`. -/
def entry (md : String → String) (s : Store) (title : String) : Option Response :=
  match findCaseTitle (list_entries s) title with
  | none => none
  | some case_title =>
    match get_entry s case_title with
    | none => some (.errorPage "The requested page was not found.")
    | some content => some (.entryPage case_title (md content))

/-- The `for ent in entries` loop of the `search` view: the first
case-insensitive exact match short-circuits into a redirect (`Sum.inl`),
otherwise the case-insensitive substring matches are collected in order
(`Sum.inr`). -/
def searchScan (query : String) : List String → Sum String (List String)
  | [] => .inr []
  | ent :: rest =>
    if pyLower query == pyLower ent then
      .inl ent
    else
      match searchScan query rest with
      | .inl t => .inl t
      | .inr rs =>
        .inr (if strHasSub (pyLower ent) (pyLower query) then ent :: rs else rs)

/-- The `search` view.  The query parameter is `none` when absent from the
request, in which case `request.GET.get("q").strip()` raises
`AttributeError` on `None`; this fault is `none`. -/
def search (s : Store) (q : Option String) : Option Response :=
  match q with
  | none => none
  | some qraw =>
    match searchScan (pyStrip qraw) (list_entries s) with
    | .inl t => some (.redirect t)
    | .inr results => some (.searchPage results)

/-- The `new` view: on a valid POST, refuses a case-insensitive duplicate
title with an error page, otherwise saves the entry and redirects; on GET
or an invalid POST it renders the creation form.  Returns the response and
the resulting store state. -/
def new (s : Store) (method : Method) (data : NewEntryData) : Response × Store :=
  match method with
  | .get => (.newForm, s)
  | .post =>
    match cleanField data.title, cleanField data.content with
    | some title, some content =>
      if (list_entries s).any (fun ent => pyLower ent == pyLower title) then
        (.errorPage (title ++ " entry already exists."), s)
      else
        (.redirect title, save_entry s title content)
    | _, _ => (.newForm, s)

/-- The `edit` view: on a valid POST, saves the submitted content under the
route-supplied title and redirects; otherwise renders the edit form
pre-filled with `get_entry title`.  Returns the response and the resulting
store state. -/
def edit (s : Store) (title : String) (method : Method)
    (contentField : Option String) : Response × Store :=
  match method with
  | .post =>
    match cleanField contentField with
    | some content => (.redirect title, save_entry s title content)
    | none => (.editForm title (get_entry s title), s)
  | .get => (.editForm title (get_entry s title), s)

/-- The `random` view: an error page on an empty store, otherwise a
redirect to the entry chosen by `random.choice`, modelled by the
nondeterministic index `i` taken modulo the number of entries. -/
def random (s : Store) (i : Nat) : Response :=
  let entries := list_entries s
  if entries.isEmpty then
    .errorPage "No entries found."
  else
    .redirect (entries.getD (i % entries.length) "")

/-- The data-model invariant: at most one stored entry per case-insensitive
title (as a boolean over the title list). -/
def ciUnique : List String → Bool
  | [] => true
  | t :: rest => rest.all (fun u => pyLower u != pyLower t) && ciUnique rest

theorem ciUnique_cons {t : String} {rest : List String} :
    ciUnique (t :: rest) = true ↔
      ((∀ u ∈ rest, ¬ pyLower u = pyLower t) ∧ ciUnique rest = true) := by
  simp [ciUnique, List.all_eq_true]

theorem ciUnique_nodup {l : List String} (h : ciUnique l = true) : l.Nodup := by
  induction l with
  | nil => exact List.nodup_nil
  | cons t rest ih =>
    rw [ciUnique_cons] at h
    exact List.nodup_cons.mpr ⟨fun hmem => h.1 t hmem rfl, ih h.2⟩

theorem ciUnique_append {l : List String} {t : String}
    (h : ciUnique l = true) (hn : ∀ a ∈ l, ¬ pyLower a = pyLower t) :
    ciUnique (l ++ [t]) = true := by
  induction l with
  | nil => simp [ciUnique]
  | cons a rest ih =>
    rw [ciUnique_cons] at h
    rw [List.cons_append, ciUnique_cons]
    refine ⟨?_, ih h.2 (fun x hx => hn x (List.mem_cons_of_mem _ hx))⟩
    intro u hu
    rcases List.mem_append.mp hu with hu2 | hu2
    · exact h.1 u hu2
    · have hut : u = t := by simpa using hu2
      subst hut
      exact fun hh => hn a (List.mem_cons_self a rest) hh.symm

theorem findCaseTitle_ciUnique {l : List String} {T T' : String}
    (h : ciUnique l = true) (hT : T ∈ l) (hT' : pyLower T' = pyLower T) :
    findCaseTitle l T' = some T := by
  induction l with
  | nil => cases hT
  | cons a rest ih =>
    rw [ciUnique_cons] at h
    rcases List.mem_cons.mp hT with rfl | hT2
    · exact List.find?_cons_of_pos _ (by simp [hT'])
    · have ha : ¬ pyLower a = pyLower T' := fun hpa =>
        h.1 T hT2 ((hpa.trans hT').symm)
      rw [findCaseTitle, List.find?_cons_of_neg _ (by simpa using ha)]
      exact ih h.2 hT2

theorem get_entry_of_mem {s : Store} {T C : String}
    (h : ciUnique (list_entries s) = true) (hm : (T, C) ∈ s) :
    get_entry s T = some C := by
  induction s with
  | nil => cases hm
  | cons e rest ih =>
    have hcons : list_entries (e :: rest) = e.1 :: list_entries rest := rfl
    rw [hcons, ciUnique_cons] at h
    rcases List.mem_cons.mp hm with rfl | hm2
    · rw [get_entry, List.find?_cons_of_pos _ (by simp)]
      rfl
    · by_cases he : e.1 = T
      · exfalso
        have hTm : T ∈ list_entries rest := List.mem_map_of_mem Prod.fst hm2
        exact h.1 T hTm (by rw [he])
      · rw [get_entry, List.find?_cons_of_neg _ (by simpa using he)]
        exact ih h.2 hm2

theorem any_fst_of_mem {s : Store} {t : String} (h : t ∈ list_entries s) :
    s.any (fun e => e.fst == t) = true := by
  rcases List.mem_map.mp h with ⟨e, he, hfst⟩
  exact List.any_eq_true.mpr ⟨e, he, by simp [hfst]⟩

theorem save_entry_not_mem {s : Store} {t : String}
    (h : s.any (fun e => e.fst == t) = false) (c : String) :
    save_entry s t c = s ++ [(t, c)] := by
  rw [save_entry, if_neg]
  simp [h]

theorem get_entry_append_fresh {s : Store} {t : String}
    (h : s.any (fun e => e.fst == t) = false) (c : String) :
    get_entry (s ++ [(t, c)]) t = some c := by
  have hnone : s.find? (fun e => e.fst == t) = none := by
    rw [List.find?_eq_none]
    exact List.any_eq_false.mp h
  rw [get_entry, List.find?_append, hnone, Option.none_or,
    List.find?_cons_of_pos _ (by simp)]
  rfl

theorem find?_replace {s : Store} {t : String} (c : String)
    (h : s.any (fun e => e.fst == t) = true) :
    (s.map (fun e => if e.fst == t then (t, c) else e)).find?
        (fun e => e.fst == t) = some (t, c) := by
  induction s with
  | nil => simp at h
  | cons e rest ih =>
    by_cases he : e.fst = t
    · rw [List.map_cons, if_pos (by simp [he]),
        List.find?_cons_of_pos _ (by simp)]
    · have h2 : rest.any (fun e => e.fst == t) = true := by
        rcases List.any_eq_true.mp h with ⟨x, hx, hpx⟩
        rcases List.mem_cons.mp hx with rfl | hx2
        · exact absurd (by simpa using hpx) he
        · exact List.any_eq_true.mpr ⟨x, hx2, hpx⟩
      rw [List.map_cons, if_neg (by simp [he]),
        List.find?_cons_of_neg _ (by simpa using he)]
      exact ih h2

theorem get_entry_save_entry (s : Store) (t c : String) :
    get_entry (save_entry s t c) t = some c := by
  by_cases h : s.any (fun e => e.fst == t) = true
  · rw [save_entry, if_pos h, get_entry, find?_replace c h]
    rfl
  · have hf : s.any (fun e => e.fst == t) = false :=
      Bool.eq_false_iff.mpr h
    rw [save_entry_not_mem hf c]
    exact get_entry_append_fresh hf c

theorem list_entries_save_of_mem {s : Store} {t : String}
    (h : t ∈ list_entries s) (c : String) :
    list_entries (save_entry s t c) = list_entries s := by
  rw [save_entry, if_pos (any_fst_of_mem h), list_entries, List.map_map]
  refine List.map_congr_left ?_
  intro e _
  by_cases he : e.fst = t
  · simp [he]
  · simp [he]

theorem list_entries_save_fresh {s : Store} {t : String}
    (h : s.any (fun e => e.fst == t) = false) (c : String) :
    list_entries (save_entry s t c) = list_entries s ++ [t] := by
  rw [save_entry_not_mem h c, list_entries, List.map_append]
  rfl

theorem searchScan_exact {query : String} {entries : List String} {t : String}
    (h : entries.find? (fun ent => pyLower query == pyLower ent) = some t) :
    searchScan query entries = .inl t := by
  induction entries with
  | nil => simp [List.find?] at h
  | cons a rest ih =>
    by_cases ha : pyLower query = pyLower a
    · rw [List.find?_cons_of_pos _ (by simp [ha])] at h
      have : a = t := by simpa using h
      subst this
      rw [searchScan, if_pos (by simp [ha])]
    · rw [List.find?_cons_of_neg _ (by simpa using ha)] at h
      rw [searchScan, if_neg (by simpa using ha), ih h]

theorem searchScan_no_exact {query : String} {entries : List String}
    (h : ∀ ent ∈ entries, ¬ pyLower query = pyLower ent) :
    searchScan query entries =
      .inr (entries.filter
        (fun ent => strHasSub (pyLower ent) (pyLower query))) := by
  induction entries with
  | nil => rfl
  | cons a rest ih =>
    have ha := h a (List.mem_cons_self a rest)
    rw [searchScan, if_neg (by simpa using ha),
      ih (fun x hx => h x (List.mem_cons_of_mem _ hx)), List.filter_cons]

/-- C1: the claim states that viewing a title with no case-insensitive match
among the stored titles renders the not-found error page.  The code instead
faults: the loop never assigns `case_title`, so `util.get_entry(case_title)`
raises `UnboundLocalError` (modelled as `none`), contradicting the view's
own docstring.  Evaluated here at the concrete failing input. -/
theorem C1_entry_unmatched_faults :
    entry (fun c => c) [("Python", "x")] "Missing" = none := by decide

/-- C2: for a stored entry `(T, C)` in a store satisfying the
case-insensitive-uniqueness invariant, viewing any title `T'` that equals
`T` case-insensitively renders the entry page carrying the canonical stored
title `T` and the markup-to-HTML translation of `C`. -/
theorem C2_view_case_insensitive (md : String → String) (s : Store)
    (T C T' : String) (hci : ciUnique (list_entries s) = true)
    (hm : (T, C) ∈ s) (hT' : pyLower T' = pyLower T) :
    entry md s T' = some (.entryPage T (md C)) := by
  have hTl : T ∈ list_entries s := List.mem_map_of_mem Prod.fst hm
  unfold entry
  rw [findCaseTitle_ciUnique hci hTl hT']
  dsimp only
  rw [get_entry_of_mem hci hm]

/-- Witness for C2 at the store `[("Python", "# Py")]` and request title
`"PYTHON"`. -/
theorem C2_view_case_insensitive_witness :
    entry (fun c => c) [("Python", "# Py")] "PYTHON" =
      some (.entryPage "Python" "# Py") :=
  C2_view_case_insensitive (fun c => c) [("Python", "# Py")] "Python" "# Py"
    "PYTHON" (by decide) (by decide) (by decide)

/-- C3: when the stripped query is a case-insensitive exact match of some
stored title, Search redirects to the first such title in enumeration order
(`t` being the first title found by the scan), and no Search invocation both
redirects and returns a result list. -/
theorem C3_search_exact_redirects (s : Store) (q t : String)
    (h : (list_entries s).find?
        (fun ent => pyLower (pyStrip q) == pyLower ent) = some t) :
    search s (some q) = some (.redirect t) ∧
    ∀ (s2 : Store) (q2 : Option String) (t2 : String) (rs : List String),
      ¬ (search s2 q2 = some (.redirect t2) ∧
         search s2 q2 = some (.searchPage rs)) := by
  constructor
  · unfold search
    dsimp only
    rw [searchScan_exact h]
  · rintro s2 q2 t2 rs ⟨h1, h2⟩
    rw [h1] at h2
    simp at h2

/-- Witness for C3 at the store `[("CSS", "a"), ("Python", "b")]` and query
`" Python "`. -/
theorem C3_search_exact_redirects_witness :
    search [("CSS", "a"), ("Python", "b")] (some " Python ") =
      some (.redirect "Python") :=
  (C3_search_exact_redirects [("CSS", "a"), ("Python", "b")] " Python "
    "Python" (by decide)).1

/-- C4: when the stripped query matches no stored title exactly
(case-insensitively), Search renders a results page listing exactly the
stored titles that contain the query case-insensitively — with no
duplicates (under the store invariant) and no omissions — and an empty
result list still renders a results page, not an error. -/
theorem C4_search_substring_results (s : Store) (q : String)
    (hne : ∀ ent ∈ list_entries s, ¬ pyLower (pyStrip q) = pyLower ent)
    (hci : ciUnique (list_entries s) = true) :
    search s (some q) =
      some (.searchPage ((list_entries s).filter
        (fun ent => strHasSub (pyLower ent) (pyLower (pyStrip q))))) ∧
    ((list_entries s).filter
        (fun ent => strHasSub (pyLower ent) (pyLower (pyStrip q)))).Nodup ∧
    ∀ t, (t ∈ (list_entries s).filter
          (fun ent => strHasSub (pyLower ent) (pyLower (pyStrip q)))
        ↔ (t ∈ list_entries s ∧
            strHasSub (pyLower t) (pyLower (pyStrip q)) = true)) := by
  refine ⟨?_, ?_, ?_⟩
  · unfold search
    dsimp only
    rw [searchScan_no_exact hne]
  · exact (ciUnique_nodup hci).filter _
  · intro t
    simp [List.mem_filter]

/-- Witness for C4 at the store `[("CSS", "a"), ("Python", "b")]` and query
`"pyth"`. -/
theorem C4_search_substring_results_witness :
    search [("CSS", "a"), ("Python", "b")] (some "pyth") =
      some (.searchPage ["Python"]) :=
  ((C4_search_substring_results [("CSS", "a"), ("Python", "b")] "pyth"
      (by decide) (by decide)).1).trans (by decide)

/-- C5: for a valid Create submission with cleaned title and content, a
case-insensitive duplicate title yields an error page with the store
unchanged, while a novel title yields a redirect to the new entry with the
store extended so that `get_entry` on the title returns the content. -/
theorem C5_create (s : Store) (data : NewEntryData) (title content : String)
    (ht : cleanField data.title = some title)
    (hc : cleanField data.content = some content) :
    ((list_entries s).any (fun ent => pyLower ent == pyLower title) = true →
        new s .post data = (.errorPage (title ++ " entry already exists."), s)) ∧
    ((list_entries s).any (fun ent => pyLower ent == pyLower title) = false →
        new s .post data = (.redirect title, save_entry s title content) ∧
        get_entry (save_entry s title content) title = some content) := by
  constructor
  · intro hdup
    unfold new
    rw [ht, hc]
    simp [hdup]
  · intro hnew
    refine ⟨?_, get_entry_save_entry s title content⟩
    unfold new
    rw [ht, hc]
    simp [hnew]

/-- Witness for C5: creating `"Rust"` over the store `[("CSS", "a")]`. -/
theorem C5_create_witness :
    new [("CSS", "a")] .post ⟨some "Rust", some "# Rust"⟩ =
      (.redirect "Rust", save_entry [("CSS", "a")] "Rust" "# Rust") ∧
    get_entry (save_entry [("CSS", "a")] "Rust" "# Rust") "Rust" =
      some "# Rust" :=
  (C5_create [("CSS", "a")] ⟨some "Rust", some "# Rust"⟩ "Rust" "# Rust"
    (by decide) (by decide)).2 (by decide)

/-- C6: a valid Edit submission on an existing title `T` saves the cleaned
content `C` under `T` and redirects to `T`; the stored content of `T` is
fully replaced by `C`, the title list is unchanged, and a subsequent View
of `T` renders only the new content. -/
theorem C6_edit_replaces_content (s : Store) (T C : String)
    (cf : Option String) (hci : ciUnique (list_entries s) = true)
    (hT : T ∈ list_entries s) (hc : cleanField cf = some C) :
    edit s T .post cf = (.redirect T, save_entry s T C) ∧
    get_entry (save_entry s T C) T = some C ∧
    list_entries (save_entry s T C) = list_entries s ∧
    ∀ md, entry md (save_entry s T C) T = some (.entryPage T (md C)) := by
  have hle := list_entries_save_of_mem hT C
  refine ⟨?_, get_entry_save_entry s T C, hle, ?_⟩
  · unfold edit
    rw [hc]
  · intro md
    unfold entry
    rw [hle, findCaseTitle_ciUnique hci hT rfl]
    dsimp only
    rw [get_entry_save_entry s T C]

/-- Witness for C6: editing `"CSS"` in the store `[("CSS", "old")]`. -/
theorem C6_edit_replaces_content_witness :
    edit [("CSS", "old")] "CSS" .post (some "new") =
      (.redirect "CSS", save_entry [("CSS", "old")] "CSS" "new") ∧
    entry (fun c => c) (save_entry [("CSS", "old")] "CSS" "new") "CSS" =
      some (.entryPage "CSS" "new") :=
  ⟨(C6_edit_replaces_content [("CSS", "old")] "CSS" "new" (some "new")
      (by decide) (by decide) (by decide)).1,
   (C6_edit_replaces_content [("CSS", "old")] "CSS" "new" (some "new")
      (by decide) (by decide) (by decide)).2.2.2 (fun c => c)⟩

/-- C7: Random renders the empty-store error page exactly when the store
holds zero entries, and on a non-empty store it redirects to a title
present in `list_entries`, for every choice of random index. -/
theorem C7_random_empty_iff_error (s : Store) (i : Nat) :
    (random s i = .errorPage "No entries found." ↔ list_entries s = []) ∧
    (list_entries s ≠ [] →
      ∃ t ∈ list_entries s, random s i = .redirect t) := by
  by_cases h : list_entries s = []
  · refine ⟨⟨fun _ => h, fun _ => ?_⟩, fun hne => absurd h hne⟩
    simp [random, h]
  · have hlen : 0 < (list_entries s).length := List.length_pos.mpr h
    have hidx : i % (list_entries s).length < (list_entries s).length :=
      Nat.mod_lt _ hlen
    have hre : random s i =
        .redirect ((list_entries s).get ⟨i % (list_entries s).length, hidx⟩) := by
      simp only [random]
      rw [if_neg (by simp [List.isEmpty_iff, h]), List.getD_eq_getElem _ _ hidx]
      rfl
    refine ⟨⟨fun habs => ?_, fun h0 => absurd h0 h⟩,
      fun _ => ⟨_, List.get_mem _ _ hidx, hre⟩⟩
    rw [hre] at habs
    exact absurd habs (by simp)

/-- Witness for C7 at the empty store and at the store `[("CSS", "a")]`. -/
theorem C7_random_empty_iff_error_witness :
    random ([] : Store) 0 = .errorPage "No entries found." ∧
    ∃ t ∈ list_entries [("CSS", "a")], random [("CSS", "a")] 0 = .redirect t :=
  ⟨(C7_random_empty_iff_error ([] : Store) 0).1.mpr rfl,
   (C7_random_empty_iff_error [("CSS", "a")] 0).2 (by decide)⟩

/-- C8: the case-insensitive-uniqueness invariant on stored titles is
preserved by every handler operation that can mutate the store: Create (for
any method and form data) and Edit (whenever the route-supplied title is an
exactly stored title). -/
theorem C8_handlers_preserve_ciUnique (s : Store)
    (hci : ciUnique (list_entries s) = true) :
    (∀ (m : Method) (d : NewEntryData),
        ciUnique (list_entries (new s m d).2) = true) ∧
    (∀ (T : String) (m : Method) (cf : Option String), T ∈ list_entries s →
        ciUnique (list_entries (edit s T m cf).2) = true) := by
  constructor
  · intro m d
    cases m with
    | get => exact hci
    | post =>
      unfold new
      cases ht : cleanField d.title with
      | none =>
        cases hc : cleanField d.content with
        | none => exact hci
        | some content => exact hci
      | some title =>
        cases hc : cleanField d.content with
        | none => exact hci
        | some content =>
          dsimp only
          by_cases hdup :
              (list_entries s).any
                (fun ent => pyLower ent == pyLower title) = true
          · rw [if_pos hdup]
            exact hci
          · rw [if_neg hdup]
            have hdupf : (list_entries s).any
                (fun ent => pyLower ent == pyLower title) = false :=
              Bool.eq_false_iff.mpr hdup
            have hn : ∀ a ∈ list_entries s, ¬ pyLower a = pyLower title := by
              intro a ha hpa
              exact (List.any_eq_false.mp hdupf) a ha (by simp [hpa])
            have hfst : s.any (fun e => e.fst == title) = false := by
              rw [List.any_eq_false]
              intro e he hp
              have hef : e.fst = title := by simpa using hp
              have hmem : e.fst ∈ list_entries s :=
                List.mem_map_of_mem Prod.fst he
              exact hn e.fst hmem (by rw [hef])
            rw [list_entries_save_fresh hfst content]
            exact ciUnique_append hci hn
  · intro T m cf hT
    cases m with
    | get => exact hci
    | post =>
      unfold edit
      cases hc : cleanField cf with
      | none => exact hci
      | some content =>
        dsimp only
        rw [list_entries_save_of_mem hT content]
        exact hci

/-- Witness for C8: a Create and an Edit on the store `[("CSS", "a")]`. -/
theorem C8_handlers_preserve_ciUnique_witness :
    ciUnique (list_entries (new [("CSS", "a")] .post
        ⟨some "Rust", some "r"⟩).2) = true ∧
    ciUnique (list_entries (edit [("CSS", "a")] "CSS" .post
        (some "b")).2) = true :=
  ⟨(C8_handlers_preserve_ciUnique [("CSS", "a")] (by decide)).1 .post
      ⟨some "Rust", some "r"⟩,
   (C8_handlers_preserve_ciUnique [("CSS", "a")] (by decide)).2 "CSS" .post
      (some "b") (by decide)⟩

/-- C9: a Search request with the query parameter absent faults (the
handler produces no rendered response or redirect), for every store
state. -/
theorem C9_search_missing_query_faults (s : Store) : search s none = none :=
  rfl

/-- C10: a page-load Edit request for a title with no stored entry renders
the edit form pre-filled from the absent `get_entry` result, with no error
page and no store mutation. -/
theorem C10_edit_pageload_absent (s : Store) (T : String) (cf : Option String)
    (h : get_entry s T = none) :
    edit s T .get cf = (.editForm T none, s) := by
  unfold edit
  rw [h]

/-- Witness for C10: a page-load Edit for `"Nope"` on the empty store. -/
theorem C10_edit_pageload_absent_witness :
    edit ([] : Store) "Nope" .get none = (.editForm "Nope" none, ([] : Store)) :=
  C10_edit_pageload_absent ([] : Store) "Nope" none rfl

end Wiki
